import Mathlib

/-!
Verification of the crazy linker (android-ndk/ndk, sources/android/crazy_linker).

The repository snapshot contains only the public interface
`include/crazy_linker.h`; the engine implementation (the crazy_linker
`.cpp` sources) is not present.  The status enum `crazy_status_t` is
embedded from the header directly; the loading/closing/RELRO engine is
modelled from the natural-language specification (sections 2-8), as noted
on each definition.
-/

namespace CrazyLinker

/-- Embedded from `crazy_linker.h` lines 44-47: the two-valued status type,
with `CRAZY_STATUS_KO = 0` and `CRAZY_STATUS_OK = 1`. -/
inductive crazy_status_t where
  | CRAZY_STATUS_KO
  | CRAZY_STATUS_OK
deriving Repr, DecidableEq

/-- Embedded from `crazy_linker.h` lines 44-47: the integer value carried by
each enumerator of `crazy_status_t`. -/
def crazy_status_t.toNat : crazy_status_t → Nat
  | .CRAZY_STATUS_KO => 0
  | .CRAZY_STATUS_OK => 1

/-- Modelled from the spec (section 7, error kinds): the error conditions the
engine reports.  The engine sources are missing from the snapshot, so the
error vocabulary is taken from the spec's list of error kinds. -/
inductive LinkerError where
  | cycleDetected
  | libNotFound
  | badAlignment
  | unresolvedSymbol
  | outOfFuel
  | systemLibrary
  | notRelocated
  | noRelro
  | alreadyShared
  | relroMismatch
deriving Repr, DecidableEq

/-- Modelled from the spec (section 6, status protocol): every operation
returns a two-valued status; a result is mapped onto `crazy_status_t`. -/
def statusOf {α : Type} : Except LinkerError α → crazy_status_t
  | .ok _ => .CRAZY_STATUS_OK
  | .error _ => .CRAZY_STATUS_KO

/-- Modelled from the spec (section 4.4): the per-library RELRO sharing
status, `NotShared → Exported` or `NotShared → Imported`, both terminal. -/
inductive SharingStatus where
  | notShared
  | exported
  | imported
deriving Repr, DecidableEq

/-- Modelled from the spec (glossary, section 4.4): a shareable memory
descriptor: an anonymous region that can be mapped by several processes.
Its observable content is the byte list it carries plus the ashmem file
descriptor number from `crazy_library_info_t`. -/
structure SharedRelro where
  bytes : List Nat
  fd : Nat
deriving Repr, DecidableEq

/-- Modelled from the spec (section 3, data model): a loaded library as
recorded by the Library Registry: canonical name, reference count, the
dependency names fixed at load time, the export table, the placement
values used for the load, the RELRO range with its current (relocated)
contents, the sharing status, and the relocated / system flags. -/
structure Library where
  name : String
  refCount : Nat
  deps : List String
  exports : List (String × Nat)
  loadAddress : Nat
  fileOffset : Nat
  relroStart : Nat
  relroSize : Nat
  relroBytes : List Nat
  sharing : SharingStatus
  relocated : Bool
  system : Bool
deriving Repr, DecidableEq

/-- The identity-relevant part of a registry entry: everything except the
reference count (used to state which entries an operation left intact). -/
def Library.core (l : Library) : Library :=
  { l with refCount := 0 }

/-- Modelled from the spec (section 4.1): what the Format Parser extracts
from a library file on disk: declared dependency names, export table,
undefined symbols that relocation must resolve, the RELRO range and the
bytes relocation produces there, and whether this is a system library
satisfied through the host loader. -/
structure LibFile where
  deps : List String
  exports : List (String × Nat)
  needed : List String
  relroStart : Nat
  relroSize : Nat
  relroBytes : List Nat
  system : Bool
deriving Repr, DecidableEq

/-- Modelled from the spec (section 4.2): the resolvable file universe, a
finite map from canonical library identity to parsed file content.  Search
path resolution (context search paths, then `LD_LIBRARY_PATH`) is
abstracted into this map: its keys are the canonical identities the
resolver would arrive at. -/
abbrev Disk : Type := List (String × LibFile)

/-- Modelled from the spec (sections 3 and 4.5): the registry, the single
authoritative table of loaded libraries keyed by canonical identity. -/
abbrev Registry : Type := List Library

/-- Modelled from the spec (sections 3, 4.1): the engine state: the registry
plus the names whose segments are currently reserved but not yet
registered (in-flight address reservations). -/
structure LinkerState where
  registry : Registry
  reserved : List String
deriving Repr, DecidableEq

/-- Modelled from the spec (section 6): the part of a `crazy_context_t` the
engine reads: the explicit load address (0 = randomize) and the explicit
file offset.  Search paths are abstracted into `Disk`; the error slot is
modelled by the returned `Except`. -/
structure crazy_context_t where
  load_address : Nat
  file_offset : Nat
deriving Repr, DecidableEq

/-- Modelled from the spec (section 4.1): page granularity for alignment
checks. -/
def pageSize : Nat := 4096

/-- Modelled from the spec (section 4.1): a value is acceptable as an
explicit placement only when page-aligned. -/
def pageAligned (x : Nat) : Bool := x % pageSize == 0

/-- Registry lookup by canonical name (spec section 4.5: table keyed by
canonical library identity). -/
def lookupLib (n : String) (reg : Registry) : Option Library :=
  reg.find? (fun l => l.name == n)

/-- Disk lookup by canonical name (spec section 4.2: file location). -/
def lookupFile (disk : Disk) (n : String) : Option LibFile :=
  (List.find? (fun p => p.1 == n) disk).map (fun p => p.2)

/-- Export-table lookup by symbol name. -/
def lookupExport (tbl : List (String × Nat)) (s : String) : Option Nat :=
  (tbl.find? (fun p => p.1 == s)).map (fun p => p.2)

/-- Modelled from the spec (section 4.2): increment the reference count of
the entry with the given name (idempotent open). -/
def incRefReg (n : String) (reg : Registry) : Registry :=
  reg.map (fun l => if l.name == n then { l with refCount := l.refCount + 1 } else l)

/-- Modelled from the spec (section 4.5): decrement the reference count of
the entry with the given name. -/
def decRefReg (n : String) (reg : Registry) : Registry :=
  reg.map (fun l => if l.name == n then { l with refCount := l.refCount - 1 } else l)

/-- Modelled from the spec (section 4.5): remove the (first) entry with the
given name from the registry. -/
def removeLib (n : String) (reg : Registry) : Registry :=
  reg.eraseP (fun l => l.name == n)

/-- State-level increment wrapper. -/
def incRef (n : String) (st : LinkerState) : LinkerState :=
  { st with registry := incRefReg n st.registry }

/-- Modelled from the spec (section 4.1): reserve the address range for a
library about to be mapped. -/
def reserve (n : String) (st : LinkerState) : LinkerState :=
  { st with reserved := n :: st.reserved }

/-- Modelled from the spec (section 7): release a reservation made during a
failed load attempt. -/
def unreserve (n : String) (st : LinkerState) : LinkerState :=
  { st with reserved := st.reserved.erase n }

/-- Total reference count over a registry; close's cascade is bounded by
this quantity. -/
def totalRefs (reg : Registry) : Nat :=
  (reg.map (fun l => l.refCount)).sum

/-- Registry well-formedness: canonical names are unique and every
registered entry holds at least one reference (spec section 3, invariant:
reference count is at least 1 while registered). -/
def WF (reg : Registry) : Prop :=
  (reg.map (fun l => l.name)).Nodup ∧ ∀ l ∈ reg, 1 ≤ l.refCount

/-- Modelled from the spec (section 4.3): search for a symbol definition in
the already-loaded dependencies, in the order they were declared; the
first match wins and later dependencies are never consulted. -/
def searchDeps (reg : Registry) (deps : List String) (sym : String) : Option Nat :=
  match deps with
  | [] => none
  | d :: ds =>
    match lookupLib d reg with
    | some l =>
      match lookupExport l.exports sym with
      | some v => some v
      | none => searchDeps reg ds sym
    | none => searchDeps reg ds sym

/-- Modelled from the spec (section 4.3): resolve an undefined symbol during
relocation: the requesting library's own export table first, then the
declared dependencies in declaration order, first match wins. -/
def resolveSymbol (reg : Registry) (exports : List (String × Nat))
    (deps : List String) (sym : String) : Option Nat :=
  match lookupExport exports sym with
  | some v => some v
  | none => searchDeps reg deps sym

/-- Modelled from the spec (section 4.3): relocation succeeds exactly when
every relocation entry's undefined symbol resolves. -/
def relocOk (reg : Registry) (f : LibFile) : Bool :=
  f.needed.all (fun s => (resolveSymbol reg f.exports f.deps s).isSome)

/-- Modelled from the spec (sections 4.2, 4.5): the registry entry created
when a fresh load of `n` with placement `(addr, off)` completes
relocation. -/
def mkLib (n : String) (addr off : Nat) (f : LibFile) : Library :=
  { name := n
    refCount := 1
    deps := f.deps
    exports := f.exports
    loadAddress := addr
    fileOffset := off
    relroStart := f.relroStart
    relroSize := f.relroSize
    relroBytes := f.relroBytes
    sharing := .notShared
    relocated := true
    system := f.system }

/-- Modelled from the spec (section 2 control flow): after relocation the
library is registered: its entry joins the registry and its in-flight
reservation becomes a permanent mapping. -/
def registerLib (n : String) (addr off : Nat) (f : LibFile) (st : LinkerState) : LinkerState :=
  { registry := mkLib n addr off f :: st.registry
    reserved := st.reserved.erase n }

/-- Close a list of libraries in order with a given one-library closer,
propagating failure. -/
def closeManyAux (closer : String → Registry → Option Registry) :
    List String → Registry → Option Registry
  | [], reg => some reg
  | n :: ns, reg => (closer n reg).bind (fun r => closeManyAux closer ns r)

/-- Modelled from the spec (section 4.5): close one library.  Decrement its
reference count; at zero the entry is removed and a decrement cascades to
every recorded dependency edge (in reverse declaration order, the inverse
of the order dependencies were opened in).  Closing an unregistered name,
or an entry whose count is already zero, fails.  `fuel` bounds the
cascade depth; the wrapper `crazy_library_close` supplies a fuel that
always suffices. -/
def closeOne : Nat → String → Registry → Option Registry
  | fuel, n, reg =>
    match lookupLib n reg with
    | none => none
    | some lib =>
      if lib.refCount = 0 then none
      else if 2 ≤ lib.refCount then some (decRefReg n reg)
      else
        match fuel with
        | 0 => none
        | fuel' + 1 => closeManyAux (closeOne fuel') lib.deps.reverse (removeLib n reg)

/-- Close a list of libraries in order at a given cascade-depth budget. -/
def closeMany (fuel : Nat) : List String → Registry → Option Registry :=
  closeManyAux (closeOne fuel)

/-- Modelled from the spec (section 7): unwind a single library opened
during a failed attempt, by closing it. -/
def unwindOne (fuel : Nat) (n : String) (st : LinkerState) : LinkerState :=
  match closeMany fuel [n] st.registry with
  | some r => { st with registry := r }
  | none => st

/-- Modelled from the spec (section 7): unwind the dependencies opened
during a failed attempt, closing them in reverse open order. -/
def unwindMany (fuel : Nat) (ds : List String) (st : LinkerState) : LinkerState :=
  match closeMany fuel ds.reverse st.registry with
  | some r => { st with registry := r }
  | none => st

/-- Open a list of libraries in order with a given one-library opener,
unwinding the already-opened prefix (in reverse order, through `unw`)
when a later open fails, so a failed run hands back the caller's
state. -/
def openManyAux (opener : String → LinkerState → Except LinkerError Unit × LinkerState)
    (unw : String → LinkerState → LinkerState) :
    List String → LinkerState → Except LinkerError Unit × LinkerState
  | [], st => (.ok (), st)
  | n :: ns, st =>
    match opener n st with
    | (.error e, st1) => (.error e, st1)
    | (.ok _, st1) =>
      match openManyAux opener unw ns st1 with
      | (.ok u, st2) => (.ok u, st2)
      | (.error e, st2) => (.error e, unw n st2)

/-- Modelled from the spec (sections 4.1, 4.2, 7): open one library.
In order: the registry is consulted first and a hit increments the
reference count and returns immediately (idempotent open); a name already
being loaded is a dependency cycle and a hard failure; the file is
located; an explicit placement must be page-aligned before any memory is
reserved; the span is reserved; the declared dependencies are opened
recursively with address 0 and file offset 0; relocation resolves every
undefined symbol; and only then is the library registered.  Every failure
path unwinds whatever the attempt had done (releases the reservation and
closes the dependencies it opened) and hands back the caller's state.
`fuel` bounds the dependency recursion depth; the cycle check fires
before fuel is consulted, so cycles are reported as cycles. -/
def openOne (disk : Disk) : Nat → Nat → Nat → List String → String → LinkerState →
    Except LinkerError Unit × LinkerState
  | fuel, addr, off, loading, n, st =>
    match lookupLib n st.registry with
    | some _ => (.ok (), incRef n st)
    | none =>
      if n ∈ loading then (.error .cycleDetected, st)
      else
        match lookupFile disk n with
        | none => (.error .libNotFound, st)
        | some f =>
          if pageAligned addr && pageAligned off then
            match fuel with
            | 0 => (.error .outOfFuel, st)
            | fuel' + 1 =>
              match openManyAux (openOne disk fuel' 0 0 (n :: loading)) (unwindOne fuel')
                  f.deps (reserve n st) with
              | (.error e, st2) => (.error e, unreserve n st2)
              | (.ok _, st2) =>
                if relocOk st2.registry f then (.ok (), registerLib n addr off f st2)
                else (.error .unresolvedSymbol, unreserve n (unwindMany fuel' f.deps st2))
          else (.error .badAlignment, st)

/-- Modelled from the spec (sections 4.2, 7): open a list of libraries in
order at the given placement and fuel, unwinding the already-opened
prefix when a later open fails. -/
def openMany (disk : Disk) (fuel : Nat) (addr off : Nat) (loading : List String) :
    List String → LinkerState → Except LinkerError Unit × LinkerState :=
  openManyAux (openOne disk fuel addr off loading) (unwindOne fuel)

/-- Fuel that always suffices for the dependency recursion: the loading set
only ever collects distinct on-disk names, so its size never exceeds the
number of disk entries. -/
def openFuelBound (disk : Disk) : Nat := disk.length + 1

/-- Modelled from the spec (sections 4.2, 6) and `crazy_linker.h` lines
119-141: `crazy_library_open`.  The engine implementation is missing from
the snapshot; this wrapper runs the modelled resolver on the single
requested name with the context's explicit placement, and returns the
handle (the canonical identity, the registry key) on success. -/
def crazy_library_open (disk : Disk) (ctx : crazy_context_t) (name : String)
    (st : LinkerState) : Except LinkerError String × LinkerState :=
  match openMany disk (openFuelBound disk) ctx.load_address ctx.file_offset [] [name] st with
  | (.ok _, st') => (.ok name, st')
  | (.error e, st') => (.error e, st')

/-- Modelled from the spec (section 4.5) and `crazy_linker.h` lines 233-235:
`crazy_library_close`.  Decrements the reference count; at zero the entry
is unmapped and removed and the decrement cascades to its recorded
dependency edges.  Closing a handle that is not registered (for example a
third close after the library was unloaded) fails (`none`) instead of
crashing. -/
def crazy_library_close (n : String) (st : LinkerState) : Option LinkerState :=
  (closeMany (totalRefs st.registry + 1) [n] st.registry).map
    (fun r => { st with registry := r })

/-- Modelled from the spec (section 4.4) and `crazy_linker.h` lines 166-174:
`crazy_library_enable_relro_sharing` (RELRO export).  Preconditions: not
a system library, fully relocated, non-empty RELRO range, not already
exported or imported.  Effect: the relocated RELRO bytes are copied into
a fresh shareable region which the library's own pages now alias; the
caller receives the range and the descriptor.  Every failure path leaves
the library untouched. -/
def crazy_library_enable_relro_sharing (lib : Library) :
    Except LinkerError (Nat × Nat × SharedRelro) × Library :=
  if lib.system then (.error .systemLibrary, lib)
  else if lib.relocated = false then (.error .notRelocated, lib)
  else if lib.relroSize = 0 then (.error .noRelro, lib)
  else
    match lib.sharing with
    | .notShared =>
      (.ok (lib.relroStart, lib.relroSize, { bytes := lib.relroBytes, fd := 0 }),
       { lib with sharing := .exported })
    | _ => (.error .alreadyShared, lib)

/-- Modelled from the spec (section 4.4) and `crazy_linker.h` lines 176-191:
`crazy_library_use_relro_sharing` (RELRO import).  Preconditions: not a
system library, fully relocated, not already exported or imported, and
the supplied range must exactly equal the library's own actual RELRO
address and size.  Effect: the shared region's pages are mapped over the
library's RELRO range, discarding the private relocated copy.  Every
failure path leaves the library untouched. -/
def crazy_library_use_relro_sharing (lib : Library) (relro_start relro_size : Nat)
    (region : SharedRelro) : Except LinkerError Unit × Library :=
  if lib.system then (.error .systemLibrary, lib)
  else if lib.relocated = false then (.error .notRelocated, lib)
  else
    match lib.sharing with
    | .notShared =>
      if relro_start = lib.relroStart ∧ relro_size = lib.relroSize then
        (.ok (), { lib with sharing := .imported, relroBytes := region.bytes })
      else (.error .relroMismatch, lib)
    | _ => (.error .alreadyShared, lib)

/-- Modelled from the spec and `crazy_linker.h` lines 206-212:
`crazy_library_find_symbol` looks only at the given library's symbols;
on success it returns the symbol's address, "which could be NULL for
some symbols" (an export table may bind a name to address 0). -/
def crazy_library_find_symbol (lib : Library) (symbol_name : String) : Option Nat :=
  lookupExport lib.exports symbol_name

/-- The correctness contract of one resolver run: failures hand back the
caller's state unchanged; successes preserve registry well-formedness and
the set of in-flight reservations, are inverted exactly by closing the
opened names in reverse order, never register a name still being loaded,
register new entries only for the requested names (with the request's
placement) or for dependencies (with placement 0/0), and register a fresh
singleton request with reference count 1. -/
def OpenSpec (fuel addr off : Nat) (loading names : List String)
    (st : LinkerState) (res : Except LinkerError Unit × LinkerState) : Prop :=
  (∀ e st', res = (.error e, st') → st' = st) ∧
  (∀ st', res = (.ok (), st') →
    WF st'.registry ∧
    st'.reserved = st.reserved ∧
    closeMany fuel names.reverse st'.registry = some st.registry ∧
    (∀ m, m ∈ loading → lookupLib m st.registry = none → lookupLib m st'.registry = none) ∧
    (∀ l, l ∈ st'.registry →
      (∃ l0 ∈ st.registry, l0.core = l.core) ∨
      (l.name ∈ names ∧ l.loadAddress = addr ∧ l.fileOffset = off) ∨
      (l.loadAddress = 0 ∧ l.fileOffset = 0)) ∧
    (∀ n, names = [n] → lookupLib n st.registry = none →
      ∃ l, lookupLib n st'.registry = some l ∧ l.refCount = 1 ∧ l.relocated = true ∧
        l.sharing = SharingStatus.notShared ∧ l.loadAddress = addr ∧ l.fileOffset = off))

/-- A concrete relocated, non-system library with a non-empty RELRO range,
used as a witness input. -/
def sampleLib : Library :=
  { name := "libfoo.so"
    refCount := 1
    deps := []
    exports := []
    loadAddress := 0
    fileOffset := 0
    relroStart := 8192
    relroSize := 4096
    relroBytes := [1, 2, 3]
    sharing := .notShared
    relocated := true
    system := false }

/-- A concrete dependency-free library file, used as a witness input. -/
def sampleFile : LibFile :=
  { deps := []
    exports := [("foo_sym", 42)]
    needed := []
    relroStart := 8192
    relroSize := 4096
    relroBytes := [1, 2, 3]
    system := false }

/-- A concrete context with no explicit placement. -/
def ctx0 : crazy_context_t := { load_address := 0, file_offset := 0 }

/-- A concrete context whose explicit load address is not page-aligned. -/
def ctxMis : crazy_context_t := { load_address := 1, file_offset := 0 }

/-- A concrete context with an explicit page-aligned load address. -/
def ctxHigh : crazy_context_t := { load_address := 8192, file_offset := 0 }

/-- The empty engine state. -/
def st0 : LinkerState := { registry := [], reserved := [] }

/-- A two-entry disk forming a dependency cycle: liba needs libb and libb
needs liba. -/
def cycleDisk : Disk :=
  [("liba.so", { sampleFile with deps := ["libb.so"] }),
   ("libb.so", { sampleFile with deps := ["liba.so"] })]

/-- A single-entry disk holding a dependency-free library. -/
def soloDisk : Disk := [("libfoo.so", sampleFile)]

/-- A two-entry disk where libapp depends on libdep. -/
def depDisk : Disk :=
  [("libapp.so", { sampleFile with deps := ["libdep.so"] }),
   ("libdep.so", sampleFile)]

/-- The state after opening libfoo.so from `soloDisk` into the empty state. -/
def soloState : LinkerState :=
  { registry := [mkLib "libfoo.so" 0 0 sampleFile], reserved := [] }

/-- The state after opening libapp.so from `depDisk` at load address 8192
into the empty state. -/
def depState : LinkerState :=
  { registry :=
      [mkLib "libapp.so" 8192 0 { sampleFile with deps := ["libdep.so"] },
       mkLib "libdep.so" 0 0 sampleFile],
    reserved := [] }

/-- A state holding one already-registered library. -/
def oneLibState : LinkerState := { registry := [sampleLib], reserved := [] }

/-- `oneLibState` after a second open of the same library. -/
def oneLibStateTwice : LinkerState :=
  { registry := [{ sampleLib with refCount := 2 }], reserved := [] }

/-! ## Registry bookkeeping lemmas -/

theorem lookupLib_cons_pos {l : Library} {n : String} (reg : Registry) (h : l.name = n) :
    lookupLib n (l :: reg) = some l := by
  simp [lookupLib, List.find?_cons, h]

theorem lookupLib_cons_neg {l : Library} {n : String} (reg : Registry) (h : l.name ≠ n) :
    lookupLib n (l :: reg) = lookupLib n reg := by
  simp [lookupLib, List.find?_cons, h]

theorem lookupLib_mem {n : String} {reg : Registry} {l : Library}
    (h : lookupLib n reg = some l) : l ∈ reg ∧ l.name = n := by
  refine ⟨List.mem_of_find?_eq_some h, ?_⟩
  have := List.find?_some h
  simpa using this

theorem lookupLib_eq_none_iff {n : String} {reg : Registry} :
    lookupLib n reg = none ↔ ∀ l ∈ reg, l.name ≠ n := by
  simp [lookupLib, List.find?_eq_none]

theorem names_incRefReg (n : String) (reg : Registry) :
    (incRefReg n reg).map (fun l => l.name) = reg.map (fun l => l.name) := by
  unfold incRefReg
  rw [List.map_map]
  apply List.map_congr_left
  intro a _
  by_cases hb : a.name == n <;> simp [Function.comp, hb]

theorem lookupLib_incRefReg_self (n : String) (reg : Registry) :
    lookupLib n (incRefReg n reg) =
      (lookupLib n reg).map (fun l => { l with refCount := l.refCount + 1 }) := by
  induction reg with
  | nil => rfl
  | cons l reg ih =>
    by_cases hb : l.name == n
    · have hn : l.name = n := by simpa using hb
      simp only [incRefReg, List.map_cons, if_pos hb]
      rw [lookupLib_cons_pos _ (show ({ l with refCount := l.refCount + 1 } : Library).name = n from hn)]
      rw [lookupLib_cons_pos _ hn]
      rfl
    · have hn : l.name ≠ n := by simpa using hb
      simp only [incRefReg, List.map_cons, if_neg hb]
      rw [lookupLib_cons_neg _ hn, lookupLib_cons_neg _ hn]
      exact ih

theorem lookupLib_incRefReg_none {m n : String} {reg : Registry}
    (h : lookupLib m reg = none) : lookupLib m (incRefReg n reg) = none := by
  rw [lookupLib_eq_none_iff] at h ⊢
  intro l hl
  obtain ⟨l0, hl0, rfl⟩ := List.mem_map.mp hl
  by_cases hb : l0.name == n <;> simp [hb] <;> exact h l0 hl0

theorem decRefReg_incRefReg (n : String) (reg : Registry) :
    decRefReg n (incRefReg n reg) = reg := by
  unfold decRefReg incRefReg
  rw [List.map_map]
  have hpt : ∀ a ∈ reg,
      ((fun l => if (l.name == n) = true then { l with refCount := l.refCount - 1 } else l) ∘
        (fun l => if (l.name == n) = true then { l with refCount := l.refCount + 1 } else l)) a
      = id a := by
    intro a _
    by_cases hb : a.name == n <;> simp [Function.comp, hb]
  rw [List.map_congr_left hpt, List.map_id]

theorem WF_incRefReg {n : String} {reg : Registry} (h : WF reg) : WF (incRefReg n reg) := by
  refine ⟨by rw [names_incRefReg]; exact h.1, ?_⟩
  intro l hl
  obtain ⟨l0, hl0, rfl⟩ := List.mem_map.mp hl
  by_cases hb : l0.name == n
  · simp [hb]
  · simp only [if_neg hb]
    exact h.2 l0 hl0

theorem mem_incRefReg_core {n : String} {reg : Registry} {l : Library}
    (h : l ∈ incRefReg n reg) : ∃ l0 ∈ reg, l0.core = l.core := by
  obtain ⟨l0, hl0, rfl⟩ := List.mem_map.mp h
  refine ⟨l0, hl0, ?_⟩
  by_cases hb : l0.name == n <;> simp [hb, Library.core]

theorem removeLib_cons_pos {l : Library} {n : String} (reg : Registry) (h : l.name = n) :
    removeLib n (l :: reg) = reg := by
  simp [removeLib, List.eraseP_cons_of_pos, h]

theorem totalRefs_cons (l : Library) (reg : Registry) :
    totalRefs (l :: reg) = l.refCount + totalRefs reg := by
  simp [totalRefs]

theorem totalRefs_decRefReg_le (n : String) (reg : Registry) :
    totalRefs (decRefReg n reg) ≤ totalRefs reg := by
  induction reg with
  | nil => exact le_refl _
  | cons l reg ih =>
    simp only [decRefReg, List.map_cons, totalRefs_cons]
    rw [show (List.map (fun x => if x.name == n then { x with refCount := x.refCount - 1 } else x) reg) = decRefReg n reg from rfl]
    by_cases hb : l.name == n
    · simp only [if_pos hb]
      have : l.refCount - 1 ≤ l.refCount := Nat.sub_le _ _
      omega
    · simp only [if_neg hb]
      omega

theorem totalRefs_decRefReg_lt {n : String} {reg : Registry} {l : Library}
    (h : lookupLib n reg = some l) (hc : 1 ≤ l.refCount) :
    totalRefs (decRefReg n reg) + 1 ≤ totalRefs reg := by
  induction reg with
  | nil => simp [lookupLib] at h
  | cons a reg ih =>
    by_cases hb : a.name == n
    · rw [lookupLib_cons_pos reg (by simpa using hb)] at h
      obtain rfl : a = l := by exact Option.some.inj h
      have hle := totalRefs_decRefReg_le n reg
      simp only [decRefReg, List.map_cons, if_pos hb, totalRefs_cons]
      rw [show (List.map (fun x => if x.name == n then { x with refCount := x.refCount - 1 } else x) reg) = decRefReg n reg from rfl]
      omega
    · rw [lookupLib_cons_neg reg (by simpa using hb)] at h
      have := ih h
      simp only [decRefReg, List.map_cons, if_neg hb, totalRefs_cons]
      rw [show (List.map (fun x => if x.name == n then { x with refCount := x.refCount - 1 } else x) reg) = decRefReg n reg from rfl]
      omega

theorem totalRefs_removeLib {n : String} {reg : Registry} {l : Library}
    (h : lookupLib n reg = some l) :
    totalRefs (removeLib n reg) + l.refCount = totalRefs reg := by
  induction reg with
  | nil => simp [lookupLib] at h
  | cons a reg ih =>
    by_cases hb : a.name == n
    · rw [lookupLib_cons_pos reg (by simpa using hb)] at h
      obtain rfl : a = l := by exact Option.some.inj h
      simp [removeLib, List.eraseP_cons_of_pos, hb, totalRefs_cons]
      omega
    · rw [lookupLib_cons_neg reg (by simpa using hb)] at h
      have hrm : removeLib n (a :: reg) = a :: removeLib n reg := by
        simp [removeLib, List.eraseP_cons, hb]
      rw [hrm, totalRefs_cons, totalRefs_cons]
      have := ih h
      omega

theorem refCount_le_totalRefs {n : String} {reg : Registry} {l : Library}
    (h : lookupLib n reg = some l) : l.refCount ≤ totalRefs reg := by
  have := totalRefs_removeLib h
  omega

/-! ## Close cascade lemmas -/

theorem closeMany_nil (fuel : Nat) (reg : Registry) : closeMany fuel [] reg = some reg := rfl

theorem closeOne_eq (fuel : Nat) (n : String) (reg : Registry) :
    closeOne fuel n reg =
      match lookupLib n reg with
      | none => none
      | some lib =>
        if lib.refCount = 0 then none
        else if 2 ≤ lib.refCount then some (decRefReg n reg)
        else
          match fuel with
          | 0 => none
          | fuel' + 1 => closeMany fuel' lib.deps.reverse (removeLib n reg) := by
  rw [closeOne]
  rfl

theorem closeMany_cons (fuel : Nat) (n : String) (ns : List String) (reg : Registry) :
    closeMany fuel (n :: ns) reg =
      (closeOne fuel n reg).bind (fun r => closeMany fuel ns r) := rfl

theorem closeMany_cons_none {n : String} {reg : Registry} (fuel : Nat) (ns : List String)
    (h : lookupLib n reg = none) : closeMany fuel (n :: ns) reg = none := by
  rw [closeMany_cons, closeOne_eq]
  simp only [h]
  rfl

theorem closeMany_cons_zero {n : String} {reg : Registry} {lib : Library} (fuel : Nat)
    (ns : List String) (h : lookupLib n reg = some lib) (hc : lib.refCount = 0) :
    closeMany fuel (n :: ns) reg = none := by
  rw [closeMany_cons, closeOne_eq]
  simp only [h]
  rw [if_pos hc]
  rfl

theorem closeMany_cons_dec {n : String} {reg : Registry} {lib : Library} (fuel : Nat)
    (ns : List String) (h : lookupLib n reg = some lib) (hc : 2 ≤ lib.refCount) :
    closeMany fuel (n :: ns) reg = closeMany fuel ns (decRefReg n reg) := by
  rw [closeMany_cons, closeOne_eq]
  simp only [h]
  rw [if_neg (by omega), if_pos hc]
  rfl

theorem closeMany_cons_casc_zero {n : String} {reg : Registry} {lib : Library}
    (ns : List String) (h : lookupLib n reg = some lib) (hc : lib.refCount = 1) :
    closeMany 0 (n :: ns) reg = none := by
  rw [closeMany_cons, closeOne_eq]
  simp only [h]
  rw [if_neg (by omega), if_neg (by omega)]
  rfl

theorem closeMany_cons_casc {n : String} {reg : Registry} {lib : Library} {fuel : Nat}
    (ns : List String) (h : lookupLib n reg = some lib) (hc : lib.refCount = 1)
    (hf : fuel ≠ 0) :
    closeMany fuel (n :: ns) reg =
      (closeMany (fuel - 1) lib.deps.reverse (removeLib n reg)).bind
        (fun reg1 => closeMany fuel ns reg1) := by
  obtain ⟨f, rfl⟩ : ∃ f, fuel = f + 1 := ⟨fuel - 1, by omega⟩
  rw [closeMany_cons, closeOne_eq]
  simp only [h]
  rw [if_neg (by omega), if_neg (by omega)]
  rfl

theorem closeMany_append (bs : List String) :
    ∀ (as : List String) (fuel : Nat) (reg : Registry),
      closeMany fuel (as ++ bs) reg =
        (closeMany fuel as reg).bind (fun r => closeMany fuel bs r) := by
  intro as
  induction as with
  | nil => intro fuel reg; simp [closeMany_nil]
  | cons a as ih =>
    intro fuel reg
    rcases hl : lookupLib a reg with _ | lib
    · simp [closeMany_cons_none fuel _ hl]
    · by_cases hc0 : lib.refCount = 0
      · simp [closeMany_cons_zero fuel _ hl hc0]
      · by_cases hc2 : 2 ≤ lib.refCount
        · rw [List.cons_append, closeMany_cons_dec fuel _ hl hc2,
            closeMany_cons_dec fuel _ hl hc2]
          exact ih fuel (decRefReg a reg)
        · have hc1 : lib.refCount = 1 := by omega
          by_cases hf : fuel = 0
          · subst hf
            simp [closeMany_cons_casc_zero _ hl hc1]
          · rw [List.cons_append, closeMany_cons_casc _ hl hc1 hf,
              closeMany_cons_casc _ hl hc1 hf]
            rcases hm : closeMany (fuel - 1) lib.deps.reverse (removeLib a reg) with _ | reg1
            · rfl
            · rw [Option.some_bind, Option.some_bind]
              exact ih fuel reg1

theorem closeMany_totalRefs_le :
    ∀ (fuel : Nat) (ns : List String) (reg r : Registry),
      closeMany fuel ns reg = some r → totalRefs r ≤ totalRefs reg := by
  intro fuel
  induction fuel with
  | zero =>
    intro ns
    induction ns with
    | nil => intro reg r h; rw [closeMany_nil] at h; cases h; exact le_refl _
    | cons n ns ih =>
      intro reg r h
      rcases hl : lookupLib n reg with _ | lib
      · rw [closeMany_cons_none _ _ hl] at h; cases h
      · by_cases hc0 : lib.refCount = 0
        · rw [closeMany_cons_zero _ _ hl hc0] at h; cases h
        · by_cases hc2 : 2 ≤ lib.refCount
          · rw [closeMany_cons_dec _ _ hl hc2] at h
            exact le_trans (ih _ _ h) (totalRefs_decRefReg_le n reg)
          · rw [closeMany_cons_casc_zero _ hl (by omega)] at h; cases h
  | succ f ihf =>
    intro ns
    induction ns with
    | nil => intro reg r h; rw [closeMany_nil] at h; cases h; exact le_refl _
    | cons n ns ih =>
      intro reg r h
      rcases hl : lookupLib n reg with _ | lib
      · rw [closeMany_cons_none _ _ hl] at h; cases h
      · by_cases hc0 : lib.refCount = 0
        · rw [closeMany_cons_zero _ _ hl hc0] at h; cases h
        · by_cases hc2 : 2 ≤ lib.refCount
          · rw [closeMany_cons_dec _ _ hl hc2] at h
            exact le_trans (ih _ _ h) (totalRefs_decRefReg_le n reg)
          · have hc1 : lib.refCount = 1 := by omega
            rw [closeMany_cons_casc _ hl hc1 (by omega)] at h
            rcases hm : closeMany (f + 1 - 1) lib.deps.reverse (removeLib n reg) with _ | reg1
            · rw [hm] at h; simp at h
            · rw [hm, Option.some_bind] at h
              have h1 := ihf _ _ _ (by simpa using hm)
              have h2 := ih _ _ h
              have h3 := totalRefs_removeLib hl
              omega

theorem closeMany_fuel_transfer :
    ∀ (fuel : Nat) (ns : List String) (reg r : Registry) (fuel2 : Nat),
      closeMany fuel ns reg = some r → totalRefs reg < fuel2 →
      closeMany fuel2 ns reg = some r := by
  intro fuel
  induction fuel with
  | zero =>
    intro ns
    induction ns with
    | nil => intro reg r fuel2 h _; rw [closeMany_nil] at h ⊢; exact h
    | cons n ns ih =>
      intro reg r fuel2 h hlt
      rcases hl : lookupLib n reg with _ | lib
      · rw [closeMany_cons_none _ _ hl] at h; cases h
      · by_cases hc0 : lib.refCount = 0
        · rw [closeMany_cons_zero _ _ hl hc0] at h; cases h
        · by_cases hc2 : 2 ≤ lib.refCount
          · rw [closeMany_cons_dec _ _ hl hc2] at h
            rw [closeMany_cons_dec fuel2 _ hl hc2]
            have hdec := totalRefs_decRefReg_lt hl (by omega)
            exact ih _ _ _ h (by omega)
          · rw [closeMany_cons_casc_zero _ hl (by omega)] at h; cases h
  | succ f ihf =>
    intro ns
    induction ns with
    | nil => intro reg r fuel2 h _; rw [closeMany_nil] at h ⊢; exact h
    | cons n ns ih =>
      intro reg r fuel2 h hlt
      rcases hl : lookupLib n reg with _ | lib
      · rw [closeMany_cons_none _ _ hl] at h; cases h
      · by_cases hc0 : lib.refCount = 0
        · rw [closeMany_cons_zero _ _ hl hc0] at h; cases h
        · by_cases hc2 : 2 ≤ lib.refCount
          · rw [closeMany_cons_dec _ _ hl hc2] at h
            rw [closeMany_cons_dec fuel2 _ hl hc2]
            have hdec := totalRefs_decRefReg_lt hl (by omega)
            exact ih _ _ _ h (by omega)
          · have hc1 : lib.refCount = 1 := by omega
            rw [closeMany_cons_casc _ hl hc1 (by omega)] at h
            rcases hm : closeMany (f + 1 - 1) lib.deps.reverse (removeLib n reg) with _ | reg1
            · rw [hm] at h; simp at h
            · rw [hm, Option.some_bind] at h
              have hrc : lib.refCount ≤ totalRefs reg := refCount_le_totalRefs hl
              have hrm := totalRefs_removeLib hl
              have hf2 : fuel2 ≠ 0 := by omega
              have hm2 : closeMany (fuel2 - 1) lib.deps.reverse (removeLib n reg) = some reg1 :=
                ihf _ _ _ _ (by simpa using hm) (by omega)
              rw [closeMany_cons_casc _ hl hc1 hf2, hm2, Option.some_bind]
              have hle1 : totalRefs reg1 ≤ totalRefs (removeLib n reg) :=
                closeMany_totalRefs_le (f + 1 - 1) _ _ _ hm
              exact ih _ _ _ h (by omega)

/-! ## Resolver unfolding and state lemmas -/

theorem LinkerState_eq {s1 s2 : LinkerState}
    (h1 : s1.registry = s2.registry) (h2 : s1.reserved = s2.reserved) : s1 = s2 := by
  cases s1; cases s2; simp_all

theorem core_eq_fields {l0 l1 : Library} (h : l0.core = l1.core) :
    l0.name = l1.name ∧ l0.loadAddress = l1.loadAddress ∧ l0.fileOffset = l1.fileOffset := by
  refine ⟨?_, ?_, ?_⟩
  · have h1 := congrArg (fun l : Library => l.name) h
    exact h1
  · have h1 := congrArg (fun l : Library => l.loadAddress) h
    exact h1
  · have h1 := congrArg (fun l : Library => l.fileOffset) h
    exact h1

theorem unreserve_reserve (n : String) (st : LinkerState) :
    unreserve n (reserve n st) = st := by
  apply LinkerState_eq
  · rfl
  · simp [reserve, unreserve]

theorem openOne_dedup {disk : Disk} {fuel addr off : Nat} {loading : List String}
    {n : String} {st : LinkerState} {lib : Library}
    (hl : lookupLib n st.registry = some lib) :
    openOne disk fuel addr off loading n st = (.ok (), incRef n st) := by
  rw [openOne, hl]

theorem openOne_cycle {disk : Disk} {fuel addr off : Nat} {loading : List String}
    {n : String} {st : LinkerState}
    (hl : lookupLib n st.registry = none) (hm : n ∈ loading) :
    openOne disk fuel addr off loading n st = (.error .cycleDetected, st) := by
  rw [openOne, hl]
  simp only [if_pos hm]

theorem openOne_notFound {disk : Disk} {fuel addr off : Nat} {loading : List String}
    {n : String} {st : LinkerState}
    (hl : lookupLib n st.registry = none) (hm : n ∉ loading)
    (hf : lookupFile disk n = none) :
    openOne disk fuel addr off loading n st = (.error .libNotFound, st) := by
  rw [openOne, hl]
  simp only [if_neg hm, hf]

theorem openOne_misaligned {disk : Disk} {fuel addr off : Nat} {loading : List String}
    {n : String} {st : LinkerState} {f : LibFile}
    (hl : lookupLib n st.registry = none) (hm : n ∉ loading)
    (hf : lookupFile disk n = some f)
    (ha : ¬(pageAligned addr && pageAligned off)) :
    openOne disk fuel addr off loading n st = (.error .badAlignment, st) := by
  rw [openOne, hl]
  simp only [if_neg hm, hf, if_neg ha]

theorem openOne_fuel_zero {disk : Disk} {addr off : Nat} {loading : List String}
    {n : String} {st : LinkerState} {f : LibFile}
    (hl : lookupLib n st.registry = none) (hm : n ∉ loading)
    (hf : lookupFile disk n = some f)
    (ha : pageAligned addr && pageAligned off) :
    openOne disk 0 addr off loading n st = (.error .outOfFuel, st) := by
  rw [openOne, hl]
  simp only [if_neg hm, hf, if_pos ha]

theorem openOne_fresh {disk : Disk} {fuel addr off : Nat} {loading : List String}
    {n : String} {st : LinkerState} {f : LibFile}
    (hl : lookupLib n st.registry = none) (hm : n ∉ loading)
    (hf : lookupFile disk n = some f)
    (ha : pageAligned addr && pageAligned off) (hfu : fuel ≠ 0) :
    openOne disk fuel addr off loading n st =
      match openMany disk (fuel - 1) 0 0 (n :: loading) f.deps (reserve n st) with
      | (.error e, st2) => (.error e, unreserve n st2)
      | (.ok _, st2) =>
        if relocOk st2.registry f then (.ok (), registerLib n addr off f st2)
        else (.error .unresolvedSymbol, unreserve n (unwindMany (fuel - 1) f.deps st2)) := by
  obtain ⟨f1, rfl⟩ : ∃ f1, fuel = f1 + 1 := ⟨fuel - 1, by omega⟩
  rw [openOne, hl]
  simp only [if_neg hm, hf, if_pos ha]
  rfl

theorem openMany_nil (disk : Disk) (fuel addr off : Nat) (loading : List String)
    (st : LinkerState) :
    openMany disk fuel addr off loading [] st = (.ok (), st) := rfl

theorem openMany_cons (disk : Disk) (fuel addr off : Nat) (loading : List String)
    (n : String) (ns : List String) (st : LinkerState) :
    openMany disk fuel addr off loading (n :: ns) st =
      match openOne disk fuel addr off loading n st with
      | (.error e, st1) => (.error e, st1)
      | (.ok _, st1) =>
        match openMany disk fuel addr off loading ns st1 with
        | (.ok u, st2) => (.ok u, st2)
        | (.error e, st2) => (.error e, unwindOne fuel n st2) := rfl

/-! ## The resolver specification -/

theorem openSpec_error (fuel addr off : Nat) (loading names : List String)
    (st : LinkerState) (e : LinkerError) :
    OpenSpec fuel addr off loading names st (.error e, st) := by
  constructor
  · intro e' st' h
    exact (Prod.ext_iff.mp h).2.symm
  · intro st' h
    simp at h

theorem openSpec_nil (disk : Disk) (fuel addr off : Nat) (loading : List String)
    (st : LinkerState) (hwf : WF st.registry) :
    OpenSpec fuel addr off loading [] st (openMany disk fuel addr off loading [] st) := by
  rw [openMany_nil]
  constructor
  · intro e st' h; simp at h
  · intro st' h
    have hst : st' = st := (Prod.ext_iff.mp h).2.symm
    subst hst
    refine ⟨hwf, rfl, ?_, fun m _ hm => hm, fun l hl => Or.inl ⟨l, hl, rfl⟩, ?_⟩
    · simp [closeMany_nil]
    · intro n hn; cases hn

theorem openOne_dedup_spec (disk : Disk) (fuel addr off : Nat) (loading : List String)
    (n : String) (st : LinkerState) (hwf : WF st.registry) {lib : Library}
    (hl : lookupLib n st.registry = some lib) :
    OpenSpec fuel addr off loading [n] st (openOne disk fuel addr off loading n st) := by
  rw [openOne_dedup hl]
  constructor
  · intro e st' h; simp at h
  · intro st' h
    have hst : st' = incRef n st := (Prod.ext_iff.mp h).2.symm
    subst hst
    have hcount : 1 ≤ lib.refCount := hwf.2 lib (lookupLib_mem hl).1
    refine ⟨WF_incRefReg hwf, rfl, ?_, ?_, ?_, ?_⟩
    · have hl2 : lookupLib n (incRefReg n st.registry) =
          some { lib with refCount := lib.refCount + 1 } := by
        rw [show lookupLib n (incRefReg n st.registry) =
          (lookupLib n st.registry).map (fun l => { l with refCount := l.refCount + 1 })
          from lookupLib_incRefReg_self n st.registry, hl]
        rfl
      rw [show ([n] : List String).reverse = [n] from rfl]
      rw [show (incRef n st).registry = incRefReg n st.registry from rfl]
      rw [closeMany_cons_dec fuel [] hl2 (by simp; omega)]
      rw [closeMany_nil, decRefReg_incRefReg]
    · intro m _ hm
      exact lookupLib_incRefReg_none hm
    · intro l hlmem
      exact Or.inl (mem_incRefReg_core hlmem)
    · intro n' hn' hnone
      obtain rfl : n = n' := by simpa using hn'
      rw [hl] at hnone
      cases hnone

theorem openSpec_compose (disk : Disk) (fuel addr off : Nat) (loading : List String)
    (n : String) (ns : List String) (st : LinkerState)
    (hone : OpenSpec fuel addr off loading [n] st (openOne disk fuel addr off loading n st))
    (htail : ∀ s : LinkerState, WF s.registry →
      OpenSpec fuel addr off loading ns s (openMany disk fuel addr off loading ns s)) :
    OpenSpec fuel addr off loading (n :: ns) st
      (openMany disk fuel addr off loading (n :: ns) st) := by
  rcases hr : openOne disk fuel addr off loading n st with ⟨r1, st1⟩
  cases r1 with
  | error e =>
    have hst1 : st1 = st := hone.1 e st1 hr
    subst hst1
    constructor
    · intro e' st' h
      simp only [openMany_cons, hr] at h
      exact (Prod.ext_iff.mp h).2.symm
    · intro st' h
      simp only [openMany_cons, hr] at h
      simp at h
  | ok u =>
    cases u
    obtain ⟨hwf1, hres1, hclose1, hload1, hcore1, hfresh1⟩ := hone.2 st1 hr
    have hclose1n : closeMany fuel [n] st1.registry = some st.registry := hclose1
    rcases ht : openMany disk fuel addr off loading ns st1 with ⟨r2, st2⟩
    cases r2 with
    | ok u2 =>
      cases u2
      obtain ⟨hwf2, hres2, hclose2, hload2, hcore2, hfresh2⟩ := (htail st1 hwf1).2 st2 ht
      constructor
      · intro e' st' h
        simp only [openMany_cons, hr, ht] at h
        simp at h
      · intro st' h
        simp only [openMany_cons, hr, ht] at h
        have hst' : st' = st2 := (Prod.ext_iff.mp h).2.symm
        subst hst'
        refine ⟨hwf2, hres2.trans hres1, ?_, ?_, ?_, ?_⟩
        · rw [show (n :: ns).reverse = ns.reverse ++ [n] from by simp]
          rw [closeMany_append, hclose2]
          simpa using hclose1n
        · intro m hm hnone
          exact hload2 m hm (hload1 m hm hnone)
        · intro l hlmem
          rcases hcore2 l hlmem with ⟨l0, hl0, hc⟩ | ⟨hname, hla, hfo⟩ | hzero
          · rcases hcore1 l0 hl0 with ⟨l1, hl1, hc1⟩ | ⟨hname0, hla0, hfo0⟩ | hzero0
            · exact Or.inl ⟨l1, hl1, hc1.trans hc⟩
            · obtain ⟨he1, he2, he3⟩ := core_eq_fields hc
              refine Or.inr (Or.inl ⟨?_, ?_, ?_⟩)
              · have hn0 : l0.name = n := by simpa using hname0
                rw [← he1, hn0]
                exact List.mem_cons_self _ _
              · rw [← he2]; exact hla0
              · rw [← he3]; exact hfo0
            · obtain ⟨he1, he2, he3⟩ := core_eq_fields hc
              refine Or.inr (Or.inr ⟨?_, ?_⟩)
              · rw [← he2]; exact hzero0.1
              · rw [← he3]; exact hzero0.2
          · exact Or.inr (Or.inl ⟨List.mem_cons_of_mem _ hname, hla, hfo⟩)
          · exact Or.inr (Or.inr hzero)
        · intro n' hn' hnone
          obtain ⟨rfl, hns⟩ : n = n' ∧ ns = [] := by simpa using hn'
          subst hns
          rw [openMany_nil] at ht
          have hst2 : st1 = st' := (Prod.ext_iff.mp ht).2
          rw [← hst2]
          exact hfresh1 n rfl hnone
    | error e2 =>
      have hst2 : st2 = st1 := (htail st1 hwf1).1 e2 st2 ht
      constructor
      · intro e' st' h
        simp only [openMany_cons, hr, ht] at h
        have hst' : st' = unwindOne fuel n st2 := (Prod.ext_iff.mp h).2.symm
        subst hst'
        rw [hst2]
        simp only [unwindOne, hclose1n]
        exact LinkerState_eq rfl hres1
      · intro st' h
        simp only [openMany_cons, hr, ht] at h
        simp at h

theorem openOne_spec_zero (disk : Disk) (addr off : Nat) (loading : List String)
    (n : String) (st : LinkerState) (hwf : WF st.registry) :
    OpenSpec 0 addr off loading [n] st (openOne disk 0 addr off loading n st) := by
  rcases hl : lookupLib n st.registry with _ | lib
  · by_cases hm : n ∈ loading
    · rw [openOne_cycle hl hm]; exact openSpec_error _ _ _ _ _ _ _
    rcases hf : lookupFile disk n with _ | f
    · rw [openOne_notFound hl hm hf]; exact openSpec_error _ _ _ _ _ _ _
    by_cases ha : pageAligned addr && pageAligned off
    · rw [openOne_fuel_zero hl hm hf ha]; exact openSpec_error _ _ _ _ _ _ _
    · rw [openOne_misaligned hl hm hf ha]; exact openSpec_error _ _ _ _ _ _ _
  · exact openOne_dedup_spec disk 0 addr off loading n st hwf hl

theorem openOne_spec_succ (disk : Disk) (f addr off : Nat) (loading : List String)
    (n : String) (st : LinkerState) (hwf : WF st.registry)
    (ihf : ∀ (names : List String) (addr2 off2 : Nat) (loading2 : List String)
      (s : LinkerState), WF s.registry →
      OpenSpec f addr2 off2 loading2 names s (openMany disk f addr2 off2 loading2 names s)) :
    OpenSpec (f + 1) addr off loading [n] st (openOne disk (f + 1) addr off loading n st) := by
  rcases hl : lookupLib n st.registry with _ | lib
  · by_cases hm : n ∈ loading
    · rw [openOne_cycle hl hm]; exact openSpec_error _ _ _ _ _ _ _
    rcases hf0 : lookupFile disk n with _ | fl
    · rw [openOne_notFound hl hm hf0]; exact openSpec_error _ _ _ _ _ _ _
    by_cases ha : pageAligned addr && pageAligned off
    · -- fresh load
      rw [openOne_fresh hl hm hf0 ha (by omega), Nat.add_sub_cancel]
      have hwfr : WF (reserve n st).registry := hwf
      have hdep := ihf fl.deps 0 0 (n :: loading) (reserve n st) hwfr
      rcases hd : openMany disk f 0 0 (n :: loading) fl.deps (reserve n st) with ⟨rd, st2⟩
      cases rd with
      | error e =>
        have hst2 : st2 = reserve n st := hdep.1 e st2 hd
        subst hst2
        simp only [hd]
        rw [unreserve_reserve]
        exact openSpec_error _ _ _ _ _ _ _
      | ok u =>
        cases u
        obtain ⟨hwf2, hres2, hclose2, hload2, hcore2, hfresh2⟩ := hdep.2 st2 hd
        have hclose2r : closeMany f fl.deps.reverse st2.registry = some st.registry := hclose2
        have hres2r : st2.reserved = n :: st.reserved := hres2
        have hn_st2 : lookupLib n st2.registry = none :=
          hload2 n (List.mem_cons_self _ _) hl
        simp only [hd]
        by_cases hreloc : relocOk st2.registry fl
        · rw [if_pos hreloc]
          constructor
          · intro e' st' h; simp at h
          · intro st' h
            have hst' : st' = registerLib n addr off fl st2 := (Prod.ext_iff.mp h).2.symm
            subst hst'
            refine ⟨?_, ?_, ?_, ?_, ?_, ?_⟩
            · constructor
              · rw [show (registerLib n addr off fl st2).registry =
                  mkLib n addr off fl :: st2.registry from rfl, List.map_cons]
                refine List.nodup_cons.mpr ⟨?_, hwf2.1⟩
                intro hmem
                obtain ⟨l0, hl0, hname⟩ := List.mem_map.mp hmem
                exact (lookupLib_eq_none_iff.mp hn_st2) l0 hl0 hname
              · intro l hlmem
                rcases List.mem_cons.mp hlmem with rfl | hmem
                · exact le_refl 1
                · exact hwf2.2 l hmem
            · show st2.reserved.erase n = st.reserved
              rw [hres2r]
              exact List.erase_cons_head _ _
            · have hlk : lookupLib n (registerLib n addr off fl st2).registry =
                  some (mkLib n addr off fl) := lookupLib_cons_pos _ rfl
              rw [show ([n] : List String).reverse = [n] from rfl]
              rw [closeMany_cons_casc [] hlk rfl (by omega), Nat.add_sub_cancel]
              rw [show removeLib n (registerLib n addr off fl st2).registry = st2.registry
                from removeLib_cons_pos _ rfl]
              rw [show (mkLib n addr off fl).deps = fl.deps from rfl]
              rw [hclose2r]
              exact closeMany_nil _ _
            · intro m hmem hnone
              have hne : (mkLib n addr off fl).name ≠ m := by
                intro hcon
                rw [show (mkLib n addr off fl).name = n from rfl] at hcon
                rw [hcon] at hm
                exact hm hmem
              rw [show (registerLib n addr off fl st2).registry =
                mkLib n addr off fl :: st2.registry from rfl]
              rw [lookupLib_cons_neg _ hne]
              exact hload2 m (List.mem_cons_of_mem _ hmem) hnone
            · intro l hlmem
              rcases List.mem_cons.mp hlmem with rfl | hmem
              · exact Or.inr (Or.inl ⟨List.mem_cons_self _ _, rfl, rfl⟩)
              · rcases hcore2 l hmem with ⟨l0, hl0, hc⟩ | ⟨_, hla, hfo⟩ | hzero
                · exact Or.inl ⟨l0, hl0, hc⟩
                · exact Or.inr (Or.inr ⟨hla, hfo⟩)
                · exact Or.inr (Or.inr hzero)
            · intro n' hn' _
              obtain rfl : n = n' := by simpa using hn'
              exact ⟨mkLib n addr off fl, lookupLib_cons_pos _ rfl, rfl, rfl, rfl, rfl, rfl⟩
        · rw [if_neg hreloc]
          have hst : unreserve n (unwindMany f fl.deps st2) = st := by
            apply LinkerState_eq
            · show (unwindMany f fl.deps st2).registry = st.registry
              simp only [unwindMany, hclose2r]
            · show (unwindMany f fl.deps st2).reserved.erase n = st.reserved
              rw [show (unwindMany f fl.deps st2).reserved = st2.reserved from by
                simp only [unwindMany, hclose2r]]
              rw [hres2r]
              exact List.erase_cons_head _ _
          rw [hst]
          exact openSpec_error _ _ _ _ _ _ _
    · rw [openOne_misaligned hl hm hf0 ha]; exact openSpec_error _ _ _ _ _ _ _
  · exact openOne_dedup_spec disk (f + 1) addr off loading n st hwf hl

theorem openMany_spec (disk : Disk) :
    ∀ (fuel : Nat) (names : List String) (addr off : Nat) (loading : List String)
      (st : LinkerState), WF st.registry →
      OpenSpec fuel addr off loading names st
        (openMany disk fuel addr off loading names st) := by
  intro fuel
  induction fuel with
  | zero =>
    intro names
    induction names with
    | nil => intro addr off loading st hwf; exact openSpec_nil disk 0 addr off loading st hwf
    | cons n ns ihn =>
      intro addr off loading st hwf
      exact openSpec_compose disk 0 addr off loading n ns st
        (openOne_spec_zero disk addr off loading n st hwf)
        (fun s hs => ihn addr off loading s hs)
  | succ f ihf =>
    intro names
    induction names with
    | nil =>
      intro addr off loading st hwf
      exact openSpec_nil disk (f + 1) addr off loading st hwf
    | cons n ns ihn =>
      intro addr off loading st hwf
      exact openSpec_compose disk (f + 1) addr off loading n ns st
        (openOne_spec_succ disk f addr off loading n st hwf
          (fun names2 a2 o2 L2 s hs => ihf names2 a2 o2 L2 s hs))
        (fun s hs => ihn addr off loading s hs)

/-! ## Helper lemmas on the RELRO sharing operations -/

theorem enable_relro_err_of_not_notShared (lib : Library)
    (h : lib.sharing ≠ SharingStatus.notShared) :
    ∃ e, (crazy_library_enable_relro_sharing lib).1 = Except.error e := by
  unfold crazy_library_enable_relro_sharing
  by_cases h1 : lib.system
  · simp [h1]
  by_cases h2 : lib.relocated = false
  · simp [h1, h2]
  by_cases h3 : lib.relroSize = 0
  · simp [h1, h2, h3]
  rcases hs : lib.sharing with _ | _ | _
  · exact absurd hs h
  · simp [h1, h2, h3, hs]
  · simp [h1, h2, h3, hs]

theorem use_relro_err_of_not_notShared (lib : Library) (s z : Nat) (r : SharedRelro)
    (h : lib.sharing ≠ SharingStatus.notShared) :
    ∃ e, (crazy_library_use_relro_sharing lib s z r).1 = Except.error e := by
  unfold crazy_library_use_relro_sharing
  by_cases h1 : lib.system
  · simp [h1]
  by_cases h2 : lib.relocated = false
  · simp [h1, h2]
  rcases hs : lib.sharing with _ | _ | _
  · exact absurd hs h
  · simp [h1, h2, hs]
  · simp [h1, h2, hs]

theorem enable_relro_err_of_not_relocated (lib : Library)
    (h : lib.relocated = false) :
    ∃ e, (crazy_library_enable_relro_sharing lib).1 = Except.error e := by
  unfold crazy_library_enable_relro_sharing
  by_cases h1 : lib.system
  · simp [h1]
  · simp [h1, h]

theorem use_relro_err_of_not_relocated (lib : Library) (s z : Nat) (r : SharedRelro)
    (h : lib.relocated = false) :
    ∃ e, (crazy_library_use_relro_sharing lib s z r).1 = Except.error e := by
  unfold crazy_library_use_relro_sharing
  by_cases h1 : lib.system
  · simp [h1]
  · simp [h1, h]

theorem enable_relro_ok_inv {lib : Library} {res : Nat × Nat × SharedRelro} {lib' : Library}
    (h : crazy_library_enable_relro_sharing lib = (.ok res, lib')) :
    lib.system = false ∧ lib.relocated = true ∧ lib.sharing = SharingStatus.notShared ∧
    lib' = { lib with sharing := SharingStatus.exported } := by
  obtain ⟨nm, rc, dp, ex, la, fo, rs, rz, rb, sh, rl, sy⟩ := lib
  cases sy
  · cases rl
    · simp [crazy_library_enable_relro_sharing] at h
    · by_cases h3 : rz = 0
      · subst h3; simp [crazy_library_enable_relro_sharing] at h
      · cases sh
        · simp only [crazy_library_enable_relro_sharing, if_neg h3] at h
          simp only [Bool.false_eq_true, if_false, if_neg (by simp : ¬(true = false)),
            Prod.mk.injEq, Except.ok.injEq] at h
          obtain ⟨h1, h2⟩ := h
          subst h2
          exact ⟨rfl, rfl, rfl, rfl⟩
        · simp [crazy_library_enable_relro_sharing, h3] at h
        · simp [crazy_library_enable_relro_sharing, h3] at h
  · simp [crazy_library_enable_relro_sharing] at h

theorem use_relro_ok_inv {lib : Library} {s z : Nat} {r : SharedRelro} {lib' : Library}
    (h : crazy_library_use_relro_sharing lib s z r = (.ok (), lib')) :
    lib.system = false ∧ lib.relocated = true ∧ lib.sharing = SharingStatus.notShared ∧
    s = lib.relroStart ∧ z = lib.relroSize ∧
    lib' = { lib with sharing := SharingStatus.imported, relroBytes := r.bytes } := by
  obtain ⟨nm, rc, dp, ex, la, fo, rs, rz, rb, sh, rl, sy⟩ := lib
  cases sy
  · cases rl
    · simp [crazy_library_use_relro_sharing] at h
    · cases sh
      · by_cases h4 : s = rs ∧ z = rz
        · simp only [crazy_library_use_relro_sharing,
            if_neg (by simp : ¬(false = true)), if_neg (by simp : ¬(true = false))] at h
          rw [if_pos (by exact h4)] at h
          simp only [Prod.mk.injEq, Except.ok.injEq] at h
          obtain ⟨h1, h2⟩ := h
          subst h2
          exact ⟨rfl, rfl, rfl, h4.1, h4.2, rfl⟩
        · simp only [crazy_library_use_relro_sharing,
            if_neg (by simp : ¬(false = true)), if_neg (by simp : ¬(true = false))] at h
          rw [if_neg (by exact h4)] at h
          simp at h
      · simp [crazy_library_use_relro_sharing] at h
      · simp [crazy_library_use_relro_sharing] at h
  · simp [crazy_library_use_relro_sharing] at h

/-! ## Claim theorems: status protocol, symbol lookup, RELRO sharing -/

/-- C10: the two-valued status type encodes failure as 0 (`CRAZY_STATUS_KO`)
and success as 1 (`CRAZY_STATUS_OK`), and for every operation result the
boolean test "status equals zero" holds exactly when the operation
failed. -/
theorem status_encoding_failure_test :
    crazy_status_t.CRAZY_STATUS_KO.toNat = 0 ∧
    crazy_status_t.CRAZY_STATUS_OK.toNat = 1 ∧
    ∀ (α : Type) (res : Except LinkerError α),
      ((statusOf res).toNat = 0 ↔ ∃ e, res = Except.error e) := by
  refine ⟨rfl, rfl, ?_⟩
  intro α res
  cases res with
  | ok a => simp [statusOf, crazy_status_t.toNat]
  | error e => simp [statusOf, crazy_status_t.toNat]

theorem status_encoding_failure_test_witness :
    (statusOf (Except.error LinkerError.libNotFound : Except LinkerError Unit)).toNat = 0 :=
  (status_encoding_failure_test.2.2 Unit _).mpr ⟨LinkerError.libNotFound, rfl⟩

/-- C9: `crazy_library_find_symbol` can succeed while resolving the symbol
to the null address (0): an export table may bind a name to address 0,
so a successful per-library lookup does not guarantee a non-null address
and a null address is not a failure test (failure is `none`). -/
theorem find_symbol_ok_can_be_null :
    (∃ (lib : Library) (s : String), crazy_library_find_symbol lib s = some 0) ∧
    (∃ (lib : Library) (s : String), crazy_library_find_symbol lib s = none) := by
  constructor
  · exact ⟨{ sampleLib with exports := [("null_sym", 0)] }, "null_sym", by
      simp [crazy_library_find_symbol, lookupExport, List.find?]⟩
  · exact ⟨sampleLib, "absent_sym", by
      simp [crazy_library_find_symbol, sampleLib, lookupExport, List.find?]⟩

/-- C2: importing a shared RELRO range whose (start, size) does not exactly
equal the relocated library's own actual RELRO address and size fails and
leaves the importing library (in particular its private relocated RELRO
copy) unchanged. -/
theorem use_relro_mismatch_fails_unchanged
    (lib : Library) (s z : Nat) (r : SharedRelro)
    (hrel : lib.relocated = true)
    (hmis : ¬(s = lib.relroStart ∧ z = lib.relroSize)) :
    (∃ e, (crazy_library_use_relro_sharing lib s z r).1 = Except.error e) ∧
    (crazy_library_use_relro_sharing lib s z r).2 = lib := by
  unfold crazy_library_use_relro_sharing
  by_cases h1 : lib.system
  · simp [h1]
  rcases hs : lib.sharing with _ | _ | _ <;> simp [h1, hrel, hs, hmis]

theorem use_relro_mismatch_fails_unchanged_witness :
    sampleLib.relocated = true ∧
    ¬((0 : Nat) = sampleLib.relroStart ∧ (4096 : Nat) = sampleLib.relroSize) ∧
    (∃ e, (crazy_library_use_relro_sharing sampleLib 0 4096 ⟨[], 0⟩).1 = Except.error e) ∧
    (crazy_library_use_relro_sharing sampleLib 0 4096 ⟨[], 0⟩).2 = sampleLib := by
  have h := use_relro_mismatch_fails_unchanged sampleLib 0 4096 ⟨[], 0⟩ rfl (by decide)
  exact ⟨rfl, by decide, h.1, h.2⟩

/-- C3: the RELRO-sharing status of a library follows the state machine
NotShared to Exported (via export) or NotShared to Imported (via import),
both terminal: a successful export or import starts from NotShared, and on
the resulting library every further export or import fails; neither
operation can succeed before relocation has completed. -/
theorem relro_sharing_state_machine (lib : Library) :
    (∀ res lib', crazy_library_enable_relro_sharing lib = (.ok res, lib') →
       lib.sharing = SharingStatus.notShared ∧ lib.relocated = true ∧
       lib'.sharing = SharingStatus.exported ∧
       (∃ e, (crazy_library_enable_relro_sharing lib').1 = Except.error e) ∧
       (∀ s z r, ∃ e, (crazy_library_use_relro_sharing lib' s z r).1 = Except.error e)) ∧
    (∀ s z r lib', crazy_library_use_relro_sharing lib s z r = (.ok (), lib') →
       lib.sharing = SharingStatus.notShared ∧ lib.relocated = true ∧
       lib'.sharing = SharingStatus.imported ∧
       (∃ e, (crazy_library_enable_relro_sharing lib').1 = Except.error e) ∧
       (∀ s' z' r', ∃ e, (crazy_library_use_relro_sharing lib' s' z' r').1 = Except.error e)) ∧
    (lib.relocated = false →
       (∃ e, (crazy_library_enable_relro_sharing lib).1 = Except.error e) ∧
       (∀ s z r, ∃ e, (crazy_library_use_relro_sharing lib s z r).1 = Except.error e)) := by
  refine ⟨?_, ?_, ?_⟩
  · intro res lib' h
    obtain ⟨hsys, hrel, hsh, hlib'⟩ := enable_relro_ok_inv h
    subst hlib'
    refine ⟨hsh, hrel, rfl, ?_, ?_⟩
    · exact enable_relro_err_of_not_notShared _ (by simp)
    · intro s z r; exact use_relro_err_of_not_notShared _ s z r (by simp)
  · intro s z r lib' h
    obtain ⟨hsys, hrel, hsh, hs, hz, hlib'⟩ := use_relro_ok_inv h
    subst hlib'
    refine ⟨hsh, hrel, rfl, ?_, ?_⟩
    · exact enable_relro_err_of_not_notShared _ (by simp)
    · intro s' z' r'; exact use_relro_err_of_not_notShared _ s' z' r' (by simp)
  · intro hrel
    exact ⟨enable_relro_err_of_not_relocated lib hrel,
      fun s z r => use_relro_err_of_not_relocated lib s z r hrel⟩

theorem relro_sharing_state_machine_witness :
    ({ sampleLib with sharing := SharingStatus.exported } : Library).sharing =
      SharingStatus.exported ∧
    (∃ e, (crazy_library_enable_relro_sharing
      { sampleLib with sharing := SharingStatus.exported }).1 = Except.error e) := by
  have h := (relro_sharing_state_machine sampleLib).1
    (sampleLib.relroStart, sampleLib.relroSize, { bytes := sampleLib.relroBytes, fd := 0 })
    { sampleLib with sharing := SharingStatus.exported } rfl
  exact ⟨h.2.2.1, h.2.2.2.1⟩

/-- C4: with dependency list [B, C] declared in that order, an undefined
symbol not in the requester's own export table resolves to B's definition
whenever B exports it, regardless of what C exports: the requester's own
export table is searched first, then dependencies in declaration order,
first match wins. -/
theorem resolve_symbol_declaration_order
    (reg : Registry) (a : Library) (sym : String) (bn cn : String)
    (lb : Library) (vb : Nat)
    (hdeps : a.deps = [bn, cn])
    (hown : lookupExport a.exports sym = none)
    (hb : lookupLib bn reg = some lb)
    (hvb : lookupExport lb.exports sym = some vb) :
    resolveSymbol reg a.exports a.deps sym = some vb := by
  rw [hdeps]
  simp only [resolveSymbol, hown, searchDeps, hb, hvb]

theorem resolve_symbol_declaration_order_witness :
    resolveSymbol
      [{ sampleLib with name := "libb.so", exports := [("dup_sym", 100)] },
       { sampleLib with name := "libc.so", exports := [("dup_sym", 200)] }]
      [] ["libb.so", "libc.so"] "dup_sym" = some 100 := by
  exact resolve_symbol_declaration_order
    [{ sampleLib with name := "libb.so", exports := [("dup_sym", 100)] },
     { sampleLib with name := "libc.so", exports := [("dup_sym", 200)] }]
    { sampleLib with deps := ["libb.so", "libc.so"] } "dup_sym" "libb.so" "libc.so"
    { sampleLib with name := "libb.so", exports := [("dup_sym", 100)] } 100
    rfl rfl (by simp [lookupLib, List.find?, sampleLib]) (by simp [lookupExport, List.find?])

/-! ## Claim theorems: open, close, cycles, alignment, rollback -/

/-- C8: an open that fails at any point (name not found, misaligned
placement, dependency failure, cycle, unresolved symbol) hands back the
caller's state unchanged: every reservation made and every dependency
opened during the failed attempt has been unwound, so the registry holds
no half-loaded entry. -/
theorem open_failure_rollback (disk : Disk) (ctx : crazy_context_t) (name : String)
    (st : LinkerState) (e : LinkerError) (st' : LinkerState)
    (hwf : WF st.registry)
    (h : crazy_library_open disk ctx name st = (.error e, st')) :
    st' = st := by
  rcases hr : openMany disk (openFuelBound disk) ctx.load_address ctx.file_offset [] [name] st
    with ⟨r, s⟩
  cases r with
  | ok u =>
    simp only [crazy_library_open, hr] at h
    simp at h
  | error e0 =>
    simp only [crazy_library_open, hr] at h
    have hs : st' = s := (Prod.ext_iff.mp h).2.symm
    subst hs
    exact (openMany_spec disk (openFuelBound disk) [name] ctx.load_address ctx.file_offset
      [] st hwf).1 e0 st' hr

theorem open_failure_rollback_witness :
    (crazy_library_open [] ctx0 "libnone.so" st0).2 = st0 := by
  have hwf : WF st0.registry := by simp [WF, st0]
  exact open_failure_rollback [] ctx0 "libnone.so" st0 LinkerError.libNotFound
    (crazy_library_open [] ctx0 "libnone.so" st0).2 hwf rfl

/-- C7: the context's explicit load address and file offset apply only to
the single library named in the request: after a successful open, every
registry entry either was already registered (same identity-relevant
fields), or is the requested library at the context's placement, or is a
transitively pulled-in dependency loaded with address 0 and offset 0,
regardless of the context's values. -/
theorem deps_loaded_at_default_placement (disk : Disk) (ctx : crazy_context_t)
    (name : String) (st st' : LinkerState) (hdl : String)
    (hwf : WF st.registry)
    (hopen : crazy_library_open disk ctx name st = (.ok hdl, st')) :
    ∀ l ∈ st'.registry,
      (∃ l0 ∈ st.registry, l0.core = l.core) ∨
      (l.name = name ∧ l.loadAddress = ctx.load_address ∧ l.fileOffset = ctx.file_offset) ∨
      (l.loadAddress = 0 ∧ l.fileOffset = 0) := by
  rcases hr : openMany disk (openFuelBound disk) ctx.load_address ctx.file_offset [] [name] st
    with ⟨r, s⟩
  cases r with
  | error e0 =>
    simp only [crazy_library_open, hr] at hopen
    simp at hopen
  | ok u =>
    cases u
    simp only [crazy_library_open, hr] at hopen
    have hs : st' = s := (Prod.ext_iff.mp hopen).2.symm
    subst hs
    obtain ⟨_, _, _, _, hcore, _⟩ := (openMany_spec disk (openFuelBound disk) [name]
      ctx.load_address ctx.file_offset [] st hwf).2 st' hr
    intro l hl
    rcases hcore l hl with h1 | ⟨hn, ha, ho⟩ | h3
    · exact Or.inl h1
    · exact Or.inr (Or.inl ⟨by simpa using hn, ha, ho⟩)
    · exact Or.inr (Or.inr h3)

theorem deps_loaded_at_default_placement_witness :
    (∃ l0 ∈ st0.registry, l0.core = (mkLib "libdep.so" 0 0 sampleFile).core) ∨
    ((mkLib "libdep.so" 0 0 sampleFile).name = "libapp.so" ∧
      (mkLib "libdep.so" 0 0 sampleFile).loadAddress = ctxHigh.load_address ∧
      (mkLib "libdep.so" 0 0 sampleFile).fileOffset = ctxHigh.file_offset) ∨
    ((mkLib "libdep.so" 0 0 sampleFile).loadAddress = 0 ∧
      (mkLib "libdep.so" 0 0 sampleFile).fileOffset = 0) := by
  have hwf : WF st0.registry := by simp [WF, st0]
  exact deps_loaded_at_default_placement depDisk ctxHigh "libapp.so" st0 depState
    "libapp.so" hwf rfl (mkLib "libdep.so" 0 0 sampleFile) (by simp [depState])

/-- C6 counterexample: an open request whose context carries a non-aligned
explicit load address does not always fail: when the library is already
registered, the registry is consulted first (spec 4.2, idempotent open)
and the open succeeds by incrementing the reference count, without the
placement ever being examined. -/
theorem misaligned_open_counterexample :
    ¬ pageAligned ctxMis.load_address = true ∧
    crazy_library_open [] ctxMis "libfoo.so" oneLibState =
      (.ok "libfoo.so", oneLibStateTwice) := by
  exact ⟨by decide, rfl⟩

/-- C6 (amended): for an open request of a library that is NOT already
registered and whose file is located, an explicit load address or file
offset that is not page-aligned makes the open fail with an alignment
error and reserve no memory: the state is handed back unchanged. -/
theorem misaligned_fresh_open_fails (disk : Disk) (ctx : crazy_context_t)
    (name : String) (st : LinkerState) (f : LibFile)
    (hfresh : lookupLib name st.registry = none)
    (hfile : lookupFile disk name = some f)
    (hmis : ¬(pageAligned ctx.load_address && pageAligned ctx.file_offset)) :
    crazy_library_open disk ctx name st = (.error .badAlignment, st) := by
  have h1 : openOne disk (openFuelBound disk) ctx.load_address ctx.file_offset [] name st
      = (.error .badAlignment, st) := openOne_misaligned hfresh (by simp) hfile hmis
  simp only [crazy_library_open, openMany_cons, h1]

theorem misaligned_fresh_open_fails_witness :
    crazy_library_open soloDisk ctxMis "libfoo.so" st0 = (.error .badAlignment, st0) := by
  exact misaligned_fresh_open_fails soloDisk ctxMis "libfoo.so" st0 sampleFile
    rfl rfl (by decide)

/-- C5: a dependency cycle (a declares b, b declares a) makes the open of a
library on the cycle fail deterministically with a cycle error and leave
the state unchanged, registering neither library.  The loading-in-progress
set stops the recursion: the error is `cycleDetected`, not fuel
exhaustion, for every disk containing the two entries. -/
theorem cycle_open_fails_deterministically (disk : Disk) (ctx : crazy_context_t)
    (a b : String) (fa fb : LibFile) (st : LinkerState)
    (hab : a ≠ b)
    (hla : lookupLib a st.registry = none) (hlb : lookupLib b st.registry = none)
    (hfa : lookupFile disk a = some fa) (hdepa : fa.deps = [b])
    (hfb : lookupFile disk b = some fb) (hdepb : fb.deps = [a])
    (haln : pageAligned ctx.load_address && pageAligned ctx.file_offset) :
    crazy_library_open disk ctx a st = (.error .cycleDetected, st) := by
  obtain ⟨p, rest, rfl⟩ : ∃ p rest, disk = p :: rest := by
    cases disk with
    | nil => simp [lookupFile] at hfa
    | cons p rest => exact ⟨p, rest, rfl⟩
  have h3 : openOne (p :: rest) rest.length 0 0 [b, a] a (reserve b (reserve a st))
      = (.error .cycleDetected, reserve b (reserve a st)) :=
    openOne_cycle hla (by simp)
  have h2 : openOne (p :: rest) (rest.length + 1) 0 0 [a] b (reserve a st)
      = (.error .cycleDetected, reserve a st) := by
    rw [openOne_fresh (show lookupLib b (reserve a st).registry = none from hlb)
      (show b ∉ [a] from by simpa using Ne.symm hab) hfb
      (show (pageAligned 0 && pageAligned 0) = true from by decide)
      (show rest.length + 1 ≠ 0 from by omega), hdepb, Nat.add_sub_cancel]
    have hm : openMany (p :: rest) rest.length 0 0 [b, a] [a] (reserve b (reserve a st))
        = (.error .cycleDetected, reserve b (reserve a st)) := by
      rw [openMany_cons]; simp only [h3]
    simp only [hm]
    rw [unreserve_reserve]
  have h1 : openOne (p :: rest) (rest.length + 2) ctx.load_address ctx.file_offset [] a st
      = (.error .cycleDetected, st) := by
    rw [openOne_fresh hla (show a ∉ ([] : List String) from by simp) hfa haln
      (show rest.length + 2 ≠ 0 from by omega), hdepa,
      show rest.length + 2 - 1 = rest.length + 1 from by omega]
    have hm2 : openMany (p :: rest) (rest.length + 1) 0 0 [a] [b] (reserve a st)
        = (.error .cycleDetected, reserve a st) := by
      rw [openMany_cons]; simp only [h2]
    simp only [hm2]
    rw [unreserve_reserve]
  have hm3 : openMany (p :: rest) (openFuelBound (p :: rest)) ctx.load_address ctx.file_offset
      [] [a] st = (.error .cycleDetected, st) := by
    rw [show openFuelBound (p :: rest) = rest.length + 2 from by
      simp [openFuelBound]]
    rw [openMany_cons]; simp only [h1]
  simp only [crazy_library_open, hm3]

theorem cycle_open_fails_deterministically_witness :
    crazy_library_open cycleDisk ctx0 "liba.so" st0 = (.error .cycleDetected, st0) := by
  exact cycle_open_fails_deterministically cycleDisk ctx0 "liba.so" "libb.so"
    { sampleFile with deps := ["libb.so"] } { sampleFile with deps := ["liba.so"] } st0
    (by decide) rfl rfl rfl rfl rfl rfl (by decide)

/-- C1: opening the same identity twice yields the same handle (the
registry key) with a reference count of 2; the first close only
decrements the count back to 1 and the library stays registered; the
second close unmaps it, restoring the state from before the first open;
and a third close on the already-unloaded handle fails (`none`) instead
of crashing. -/
theorem open_twice_refcount_and_close (disk : Disk) (ctx : crazy_context_t)
    (name : String) (st st1 : LinkerState) (hdl : String)
    (hwf : WF st.registry)
    (hfresh : lookupLib name st.registry = none)
    (hopen : crazy_library_open disk ctx name st = (.ok hdl, st1)) :
    hdl = name ∧
    (∃ l1, lookupLib name st1.registry = some l1 ∧ l1.refCount = 1) ∧
    crazy_library_open disk ctx name st1 = (.ok name, incRef name st1) ∧
    (∃ l2, lookupLib name (incRef name st1).registry = some l2 ∧ l2.refCount = 2) ∧
    crazy_library_close name (incRef name st1) = some st1 ∧
    crazy_library_close name st1 = some st ∧
    crazy_library_close name st = none := by
  rcases hr : openMany disk (openFuelBound disk) ctx.load_address ctx.file_offset [] [name] st
    with ⟨r, s⟩
  cases r with
  | error e0 =>
    simp only [crazy_library_open, hr] at hopen
    simp at hopen
  | ok u =>
    cases u
    simp only [crazy_library_open, hr] at hopen
    obtain ⟨hh, hs⟩ := Prod.ext_iff.mp hopen
    have hhdl : hdl = name := by simpa using hh.symm
    have hs1 : st1 = s := hs.symm
    subst hs1
    obtain ⟨hwf1, hres1, hclose1, hload1, hcore1, hfresh1⟩ :=
      (openMany_spec disk (openFuelBound disk) [name] ctx.load_address ctx.file_offset
        [] st hwf).2 st1 hr
    obtain ⟨l1, hlk1, hrc1, _, _, _, _⟩ := hfresh1 name rfl hfresh
    have hsecond : openMany disk (openFuelBound disk) ctx.load_address ctx.file_offset
        [] [name] st1 = (.ok (), incRef name st1) := by
      rw [openMany_cons]
      simp only [openOne_dedup hlk1, openMany_nil]
    have hlk2 : lookupLib name (incRef name st1).registry =
        some { l1 with refCount := l1.refCount + 1 } := by
      rw [show (incRef name st1).registry = incRefReg name st1.registry from rfl,
        lookupLib_incRefReg_self, hlk1]
      rfl
    refine ⟨hhdl, ⟨l1, hlk1, hrc1⟩, ?_, ?_, ?_, ?_, ?_⟩
    · simp only [crazy_library_open, hsecond]
    · exact ⟨{ l1 with refCount := l1.refCount + 1 }, hlk2, by simp [hrc1]⟩
    · unfold crazy_library_close
      rw [closeMany_cons_dec _ [] hlk2 (by simp [hrc1])]
      rw [closeMany_nil]
      rw [show decRefReg name (incRef name st1).registry = st1.registry from
        decRefReg_incRefReg name st1.registry]
      exact congrArg some (LinkerState_eq rfl rfl)
    · unfold crazy_library_close
      have htrans : closeMany (totalRefs st1.registry + 1) [name] st1.registry =
          some st.registry :=
        closeMany_fuel_transfer (openFuelBound disk) [name] st1.registry st.registry
          (totalRefs st1.registry + 1) hclose1 (by omega)
      rw [htrans]
      exact congrArg some (LinkerState_eq rfl hres1)
    · unfold crazy_library_close
      rw [closeMany_cons_none _ _ hfresh]
      rfl

theorem open_twice_refcount_and_close_witness :
    (∃ l1, lookupLib "libfoo.so" soloState.registry = some l1 ∧ l1.refCount = 1) ∧
    crazy_library_close "libfoo.so" soloState = some st0 ∧
    crazy_library_close "libfoo.so" st0 = none := by
  have hwf : WF st0.registry := by simp [WF, st0]
  have h := open_twice_refcount_and_close soloDisk ctx0 "libfoo.so" st0 soloState
    "libfoo.so" hwf rfl rfl
  exact ⟨h.2.1, h.2.2.2.2.2.1, h.2.2.2.2.2.2⟩

end CrazyLinker
